import Mathlib

/-!
Verification development for the check-in automation program.

The program (src/index.js and the richer variant in src/unnamed/part_000)
wraps HTTP calls in a bounded retry loop with exponential backoff, classifies
a 400 status on the reward-claim endpoint as non-retryable, runs a per-account
workflow (sign-in, profile fetch, reward claim), and schedules all accounts in
a daily loop with proxy rotation and supervised restart.

The shallow embedding below models:
  - JavaScript errors carrying an optional HTTP status and a noRetry flag
    (structure JsError);
  - the retry loops withRetry and withSelectiveRetry as trace-producing
    functions: the operation is a function from the 1-indexed attempt number
    to the outcome of that attempt, and the run records the sequence of
    operation invocations and backoff waits (inductive REvent);
  - executeFetch, which normalizes a fetch outcome into success or JsError;
  - loadAccounts / loadProxies line parsing, proxy assignment, the startup
    checks of main, the per-account workflow loginAndCheckIn, and the
    supervised-restart structure of main.

Delays are modelled as rationals: the source computes delay * 1.5^(attempt-1)
with JavaScript numbers, which is exact for the magnitudes involved; the
embedding uses delay * (3/2)^(attempt-1) over the rationals.
-/

namespace Funct0r

/-- A JavaScript error value as used by the program: a message, an optional
HTTP status attached by executeFetch, and the noRetry flag set for the
already-claimed case. -/
structure JsError where
  message : String
  status : Option Nat
  noRetry : Bool
  deriving Repr, DecidableEq

/-- One observable event of a retry run: an invocation of the wrapped
operation at a given 1-indexed attempt number, or a backoff wait of the
given duration in milliseconds. -/
inductive REvent where
  | call (attempt : Nat)
  | wait (d : ℚ)
  deriving Repr, DecidableEq

/-- The outcome of a retry run: the trace of calls and waits, and the final
result. The error side is an Option because withRetry with zero attempts
throws the undefined lastError, modelled as none. -/
structure RetryRun (α : Type) where
  trace : List REvent
  result : Except (Option JsError) α
  deriving Repr

/-- The backoff delay before the attempt after attempt number `attempt`:
`delay * Math.pow(1.5, attempt - 1)` in the source. -/
def backoff (delay : ℚ) (attempt : Nat) : ℚ :=
  delay * (3 / 2) ^ (attempt - 1)

/-- The loop body of withSelectiveRetry (src/unnamed/part_000 lines 122-144).
The source iterates `for (attempt = 1; attempt <= retries; attempt++)`;
here `a` is the current attempt number and `r` the number of loop iterations
still available (so `r = retries + 1 - a` throughout a run started by
`withSelectiveRetry`).  `r = 0` means the loop is over and the stored
lastError is thrown; on a failure with the noRetry flag the error is thrown
at once; on a failure at the last iteration (`r = 1`) no wait happens and
the error is thrown after the loop; otherwise the loop waits
`backoff delay a` and proceeds to attempt `a + 1`. -/
def selRetryGo (f : Nat → Except JsError α) (delay : ℚ) :
    Nat → Nat → Option JsError → RetryRun α
  | _, 0, last => ⟨[], .error last⟩
  | a, r + 1, _ =>
    match f a with
    | .ok v => ⟨[.call a], .ok v⟩
    | .error e =>
      if e.noRetry then ⟨[.call a], .error (some e)⟩
      else if r = 0 then ⟨[.call a], .error (some e)⟩
      else
        let rest := selRetryGo f delay (a + 1) r (some e)
        ⟨.call a :: .wait (backoff delay a) :: rest.trace, rest.result⟩

/-- withSelectiveRetry (src/unnamed/part_000 lines 122-144): run the
operation starting at attempt 1 with `retries` iterations available.
The defaults are the ones in the source. -/
def withSelectiveRetry (f : Nat → Except JsError α) (retries : Nat := 3)
    (delay : ℚ := 2000) : RetryRun α :=
  selRetryGo f delay 1 retries none

/-- The loop body of withRetry (src/unnamed/part_000 lines 61-77): identical
to selRetryGo except that there is no noRetry escape hatch. -/
def retryGo (f : Nat → Except JsError α) (delay : ℚ) :
    Nat → Nat → Option JsError → RetryRun α
  | _, 0, last => ⟨[], .error last⟩
  | a, r + 1, _ =>
    match f a with
    | .ok v => ⟨[.call a], .ok v⟩
    | .error e =>
      if r = 0 then ⟨[.call a], .error (some e)⟩
      else
        let rest := retryGo f delay (a + 1) r (some e)
        ⟨.call a :: .wait (backoff delay a) :: rest.trace, rest.result⟩

/-- withRetry (src/unnamed/part_000 lines 61-77) with the defaults of the
source. -/
def withRetry (f : Nat → Except JsError α) (retries : Nat := 3)
    (delay : ℚ := 2000) : RetryRun α :=
  retryGo f delay 1 retries none

/-- Number of operation invocations recorded in a trace. -/
def numCalls (t : List REvent) : Nat :=
  (t.filter fun e => match e with | .call _ => true | .wait _ => false).length

/-- The wait durations recorded in a trace, in order. -/
def waitsOf (t : List REvent) : List ℚ :=
  t.filterMap fun e => match e with | .call _ => none | .wait d => some d

/-! ### The request executor -/

/-- The outcome of one call to fetch followed by response.json(): either a
network or transport exception with its message, or an HTTP response with its
status code and parsed body. -/
inductive FetchResult (α : Type) where
  | networkError (msg : String)
  | response (status : Nat) (body : α)
  deriving Repr, DecidableEq

/-- response.ok of the fetch API: the status is in the 2xx range. -/
def is2xx (status : Nat) : Bool :=
  200 ≤ status && status < 300

/-- url.includes of the check of src/unnamed/part_000 line 104: the URL
contains the substring "/users/earn/". -/
def earnUrl (url : String) : Bool :=
  decide ("/users/earn/".toList <:+: url.toList)

/-- executeFetch (src/unnamed/part_000 lines 82-119).  A non-ok response
raises an error carrying the status; the error is flagged noRetry exactly
when the URL contains "/users/earn/" and the status is 400.  The catch block
wraps every error message in "Request failed: " and preserves the status and
the noRetry flag; a network exception therefore surfaces with no status and
without the noRetry flag. -/
def executeFetch (url : String) : FetchResult α → Except JsError α
  | .networkError msg =>
      .error { message := "Request failed: " ++ msg, status := none, noRetry := false }
  | .response status body =>
      if is2xx status then .ok body
      else
        .error { message := "Request failed: HTTP error! Status: " ++ toString status,
                 status := some status,
                 noRetry := earnUrl url && status == 400 }

/-- proxyFetch (src/unnamed/part_000 lines 81-148): executeFetch wrapped by
withSelectiveRetry with the default 3 retries and 2000 ms base delay.  The
function `responses` gives the fetch outcome observed at each attempt. -/
def proxyFetch (url : String) (responses : Nat → FetchResult α) : RetryRun α :=
  withSelectiveRetry (fun k => executeFetch url (responses k))

/-! ### Logging -/

/-- Severity of a log entry. -/
inductive LogLevel where
  | error
  | warn
  | info
  deriving Repr, DecidableEq

/-- A log entry: severity and message (the timestamp and the email tag of the
winston format carry no information the claims are about). -/
structure LogEvent where
  level : LogLevel
  message : String
  deriving Repr, DecidableEq

/-! ### The account workflow -/

/-- JavaScript truthiness of an optional string field: present and non-empty. -/
def strTruthy : Option String → Bool
  | some s => s ≠ ""
  | none => false

/-- JavaScript truthiness of an optional numeric field: present and nonzero. -/
def intTruthy : Option Int → Bool
  | some n => n ≠ 0
  | none => false

/-- Response body of the sign-in endpoint. -/
structure SignInBody where
  accessToken : Option String
  deriving Repr, DecidableEq

/-- Response body of the profile endpoint. -/
structure UserBody where
  id : Option String
  dipTokenBalance : Option Int
  deriving Repr, DecidableEq

/-- Response body of the reward-claim endpoint. -/
structure CheckinBody where
  tokensToAward : Option Int
  deriving Repr, DecidableEq

/-- The accessToken read off the sign-in response; the response itself may be
null. -/
def tokenOf : Option SignInBody → Option String
  | some b => b.accessToken
  | none => none

/-- The id read off `user || {}`. -/
def idOf : Option UserBody → Option String
  | some u => u.id
  | none => none

/-- The dipTokenBalance read off `user || {}`. -/
def balOf : Option UserBody → Option Int
  | some u => u.dipTokenBalance
  | none => none

/-- String interpolation of an optional number: undefined prints as the word
undefined. -/
def showBal : Option Int → String
  | some n => toString n
  | none => "undefined"

/-- The success message of src/unnamed/part_000 line 211, ANSI escapes
included. -/
def checkinSuccessMsg (n : Int) : String :=
  "\x1b[38;5;46mCheck-in successful! Awarded points: " ++ toString n ++ "\x1b[0m"

/-- The already-checked-in message of src/unnamed/part_000 line 219. -/
def alreadyCheckedMsg : String :=
  "\x1b[38;5;220mAlready checked in today\x1b[0m"

/-- The user-details info message of src/unnamed/part_000 line 196. -/
def userIdMsg (user : Option UserBody) : String :=
  "User id: " ++ (idOf user).getD "undefined" ++ " | Current points: " ++ showBal (balOf user)

/-- The log entries produced by the reward-claim step of loginAndCheckIn
(src/unnamed/part_000 lines 199-224), as a function of the result of the
claim call: a truthy tokensToAward logs the success message; a falsy one
(zero, missing, or null payload) logs the not-available warning; a failure
with status 400 logs the already-checked-in info message; any other failure
logs a check-in failure error with the error message. -/
def checkinLogs : Except JsError (Option CheckinBody) → List LogEvent
  | .ok c =>
      match c with
      | some b =>
          match b.tokensToAward with
          | some n =>
              if n ≠ 0 then [⟨.info, checkinSuccessMsg n⟩]
              else [⟨.warn, "Check-in not available yet."⟩]
          | none => [⟨.warn, "Check-in not available yet."⟩]
      | none => [⟨.warn, "Check-in not available yet."⟩]
  | .error e =>
      if e.status = some 400 then [⟨.info, alreadyCheckedMsg⟩]
      else [⟨.error, "Check-in failed: " ++ e.message⟩]

/-- The results the three proxyFetch calls of one loginAndCheckIn invocation
would deliver (sign-in, profile fetch, reward claim), each after its own
retry wrapper has finished. -/
structure Scenario where
  signInRes : Except JsError (Option SignInBody)
  userRes : Except JsError (Option UserBody)
  checkinRes : Except JsError (Option CheckinBody)

/-- The three endpoints the workflow can call. -/
inductive Endpoint where
  | signin
  | users
  | earn
  deriving Repr, DecidableEq

/-- loginAndCheckIn (src/unnamed/part_000 lines 167-232), as a function from
the results of its three calls to the log entries it emits and the endpoints
it actually calls.  A sign-in or profile-fetch failure is caught by the outer
catch; a missing token logs a login failure; a missing id ends the workflow
with no further log; the reward-claim step is handled by checkinLogs and its
failures never reach the outer catch. -/
def loginAndCheckIn (s : Scenario) : List LogEvent × List Endpoint :=
  let l0 : List LogEvent := [⟨.info, "Attempting login"⟩]
  match s.signInRes with
  | .error e => (l0 ++ [⟨.error, "Error during process: " ++ e.message⟩], [.signin])
  | .ok signIn =>
    if strTruthy (tokenOf signIn) then
      let l1 := l0 ++ [⟨.info, "Login succeeded! Fetching user details..."⟩]
      match s.userRes with
      | .error e => (l1 ++ [⟨.error, "Error during process: " ++ e.message⟩], [.signin, .users])
      | .ok user =>
        if strTruthy (idOf user) then
          let l2 := l1 ++ [⟨.info, userIdMsg user⟩, ⟨.info, "Attempting daily check-in..."⟩]
          (l2 ++ checkinLogs s.checkinRes, [.signin, .users, .earn])
        else (l1, [.signin, .users])
    else (l0 ++ [⟨.error, "Login failed"⟩], [.signin])

/-! ### Input parsing -/

/-- JavaScript String.prototype.split with a one-character separator, on
lists of characters: "".split gives [""], a trailing separator yields a
trailing empty segment, and every occurrence of the separator splits. -/
def splitCh (sep : Char) : List Char → List (List Char)
  | [] => [[]]
  | c :: cs =>
    if c = sep then [] :: splitCh sep cs
    else
      match splitCh sep cs with
      | [] => [[c]]
      | s :: ss => (c :: s) :: ss

/-- The whitespace characters JavaScript String.prototype.trim removes,
restricted to the ASCII ones the input files can contain: space, tab,
newline, carriage return, vertical tab and form feed. -/
def isJsSpace (c : Char) : Bool :=
  c = ' ' || c = Char.ofNat 9 || c = Char.ofNat 10 || c = Char.ofNat 13 ||
    c = Char.ofNat 11 || c = Char.ofNat 12

/-- JavaScript String.prototype.trim on a list of characters: drop leading
and trailing whitespace. -/
def trimCh (l : List Char) : List Char :=
  ((l.dropWhile isJsSpace).reverse.dropWhile isJsSpace).reverse

/-- data.split newline, then trim each line (src/unnamed/part_000
lines 154-155). -/
def splitLines (data : String) : List String :=
  (splitCh (Char.ofNat 10) data.toList).map fun l => String.mk (trimCh l)

/-- line.startsWith for the one-character comment marker: the first
character is the hash. -/
def startsHash (s : String) : Bool :=
  match s.data with
  | c :: _ => c = '#'
  | [] => false

/-- The line filter of loadAccounts and loadProxies: keep non-empty lines
that do not start with the comment marker. -/
def keepLine (l : String) : Bool :=
  l ≠ "" && !(startsHash l)

/-- loadProxies (src/unnamed/part_000 lines 48-58), as a function of the
outcome of reading proxy.txt: on success the filtered lines, on a read error
an error log and the empty list.  It never throws. -/
def loadProxies (read : Except String String) : List String × List LogEvent :=
  match read with
  | .ok data => ((splitLines data).filter keepLine, [])
  | .error msg => ([], [⟨.error, "Error loading proxies: " ++ msg⟩])

/-- An account as produced by loadAccounts: destructuring
`const [email, password] = line.split(':')` always yields an email (the
segment before the first colon) and leaves password undefined when the line
has no colon. -/
structure Account where
  email : String
  password : Option String
  deriving Repr, DecidableEq

/-- The per-line parser of loadAccounts (src/unnamed/part_000 lines 157-160):
split at every colon, keep the first segment as email and the second, when
present, as password. -/
def parseLine (line : String) : Account :=
  let parts := splitCh ':' line.toList
  { email := String.mk (parts.headD []), password := (parts.get? 1).map String.mk }

/-- loadAccounts (src/unnamed/part_000 lines 151-165), as a function of the
outcome of reading data.txt.  It never throws. -/
def loadAccounts (read : Except String String) : List Account × List LogEvent :=
  match read with
  | .ok data => (((splitLines data).filter keepLine).map parseLine, [])
  | .error msg => ([], [⟨.error, "Error loading accounts: " ++ msg⟩])

/-- loadData (src/unnamed/part_000 lines 234-241) runs the composite load
under withRetry with 5 attempts and a 3000 ms base delay. -/
def loadData (readA readP : Except String String) :
    RetryRun (List Account × List String) :=
  withRetry (fun _ => .ok ((loadAccounts readA).1, (loadProxies readP).1)) 5 3000

/-! ### The scheduler -/

/-- The proxy assignment of the account loop (src/unnamed/part_000 line 268):
`proxies.length > 0 ? proxies[i % proxies.length] : null`. -/
def assignProxy (proxies : List String) (i : Nat) : Option String :=
  if proxies.length > 0 then proxies.get? (i % proxies.length) else none

/-- One workflow invocation the scheduler performs: the account position, the
credentials passed to loginAndCheckIn, and the proxy assigned. -/
structure WorkflowCall where
  index : Nat
  email : String
  password : String
  proxy : Option String
  deriving Repr, DecidableEq

/-- The workflow invocations of one cycle of the account loop
(src/unnamed/part_000 lines 265-291): account i is invoked with proxy
`assignProxy proxies i` exactly when both its email and its password are
truthy; otherwise the body is skipped entirely. -/
def scheduledRuns (accounts : List Account) (proxies : List String) :
    List WorkflowCall :=
  accounts.enum.filterMap fun p =>
    match p.2.password with
    | some pw =>
        if p.2.email ≠ "" && pw ≠ "" then
          some ⟨p.1, p.2.email, pw, assignProxy proxies p.1⟩
        else none
    | none => none

/-- The startup checks of main (src/unnamed/part_000 lines 246-259): the log
entries emitted and whether the processing loop is entered.  Zero accounts
logs an error and returns; zero proxies logs a warning and proceeds. -/
def mainStartup (accounts : List Account) (proxies : List String) :
    List LogEvent × Bool :=
  if accounts.length = 0 then
    ([⟨.error, "No accounts found in data.txt"⟩], false)
  else
    ([if proxies.length = 0 then
        ⟨.warn, "No proxies found in proxy.txt, will proceed without proxies"⟩
      else ⟨.info, "Loaded " ++ toString proxies.length ++ " proxies"⟩,
      ⟨.info, "Loaded " ++ toString accounts.length ++ " accounts"⟩], true)

/-! ### Supervised restart -/

/-- The observable state of one incarnation of main: the lists obtained by
its own loadData call (each incarnation reloads them) and the exception, if
any, escaping its processing loop. -/
structure Incarnation where
  accounts : List Account
  proxies : List String
  cycleErr : Option String

/-- A top-level event of main: a log entry or a sleep of the given duration
in milliseconds. -/
inductive MainEvent where
  | log (e : LogEvent)
  | sleepMs (ms : Nat)
  deriving Repr, DecidableEq

/-- One incarnation of main up to the point an exception escapes its try
block: the events emitted and the escaping exception, if any.  When startup
finds zero accounts the incarnation returns normally, so no exception can
escape. -/
def runIncarnation (inc : Incarnation) : List MainEvent × Option String :=
  let s := mainStartup inc.accounts inc.proxies
  (s.1.map .log, if s.2 then inc.cycleErr else none)

/-- The recovery path of the catch block of main (src/unnamed/part_000
lines 306-312): a critical error log, a restart notice, and a 60 s sleep,
after which main is invoked again from scratch. -/
def recoveryEvents (msg : String) : List MainEvent :=
  [.log ⟨.error, "Critical error in main process: " ++ msg⟩,
   .log ⟨.info, "Restarting main process in 60 seconds..."⟩,
   .sleepMs 60000]

/-- The supervised-restart structure of main: each incarnation that ends with
an escaping exception is followed by the recovery events and by a fresh
incarnation with freshly loaded lists; an incarnation that returns normally
ends the process of restarts. -/
def mainSupervised : List Incarnation → List MainEvent
  | [] => []
  | inc :: rest =>
    match runIncarnation inc with
    | (tr, some e) => tr ++ recoveryEvents e ++ mainSupervised rest
    | (tr, none) => tr

/-! ### Structural lemmas about the retry loops -/

theorem numCalls_nil : numCalls [] = 0 := rfl

theorem numCalls_cons_call (a : Nat) (t : List REvent) :
    numCalls (.call a :: t) = numCalls t + 1 := by
  simp [numCalls, List.filter_cons]

theorem numCalls_cons_wait (w : ℚ) (t : List REvent) :
    numCalls (.wait w :: t) = numCalls t := by
  simp [numCalls, List.filter_cons]

/-- A run with at least one iteration available begins by invoking the
operation at the current attempt number. -/
theorem selRetryGo_head (f : Nat → Except JsError α) (d : ℚ) (a r : Nat)
    (last : Option JsError) (hr : 1 ≤ r) :
    ((selRetryGo f d a r last).trace).head? = some (.call a) := by
  match r, hr with
  | r + 1, _ =>
    cases hf : f a with
    | ok v => simp [selRetryGo, hf]
    | error e =>
      by_cases hnr : e.noRetry
      · simp [selRetryGo, hf, hnr]
      · by_cases hr0 : r = 0
        · simp [selRetryGo, hf, hnr, hr0]
        · simp [selRetryGo, hf, hnr, hr0]

/-- Every invocation recorded by a run lies between the starting attempt and
the last iteration available. -/
theorem selRetryGo_mem_call (f : Nat → Except JsError α) (d : ℚ) :
    ∀ (r a : Nat) (last : Option JsError) (k : Nat),
      REvent.call k ∈ (selRetryGo f d a r last).trace → a ≤ k ∧ k < a + r := by
  intro r
  induction r with
  | zero => intro a last k h; simp [selRetryGo] at h
  | succ r ih =>
    intro a last k h
    cases hf : f a with
    | ok v =>
      simp [selRetryGo, hf] at h
      omega
    | error e =>
      by_cases hnr : e.noRetry
      · simp [selRetryGo, hf, hnr] at h
        omega
      · by_cases hr0 : r = 0
        · simp [selRetryGo, hf, hnr, hr0] at h
          omega
        · simp [selRetryGo, hf, hnr, hr0] at h
          rcases h with h | h
          · omega
          · have := ih (a + 1) (some e) k h
            omega

/-- A run with `r` iterations available invokes the operation at most `r`
times. -/
theorem selRetryGo_numCalls (f : Nat → Except JsError α) (d : ℚ) :
    ∀ (r a : Nat) (last : Option JsError),
      numCalls (selRetryGo f d a r last).trace ≤ r := by
  intro r
  induction r with
  | zero => intro a last; simp [selRetryGo, numCalls_nil]
  | succ r ih =>
    intro a last
    cases hf : f a with
    | ok v => simp [selRetryGo, hf, numCalls_cons_call, numCalls_nil]
    | error e =>
      by_cases hnr : e.noRetry
      · simp [selRetryGo, hf, hnr, numCalls_cons_call, numCalls_nil]
      · by_cases hr0 : r = 0
        · simp [selRetryGo, hf, hnr, hr0, numCalls_cons_call, numCalls_nil]
        · have hnr2 : e.noRetry = false := by simpa using hnr
          simp [selRetryGo, hf, hnr2, hr0, numCalls_cons_call, numCalls_cons_wait]
          have := ih (a + 1) (some e)
          omega

/-- In a selective run, every invoked attempt `k` that fails retryably and is
not the last iteration is followed by a wait of exactly `backoff d k`
immediately followed by the invocation of attempt `k + 1`. -/
theorem selRetryGo_wait_before (f : Nat → Except JsError α) (d : ℚ) :
    ∀ (r a : Nat) (last : Option JsError) (k : Nat) (e : JsError),
      f k = .error e → e.noRetry = false → k + 1 < a + r →
      REvent.call k ∈ (selRetryGo f d a r last).trace →
      ∃ i, ((selRetryGo f d a r last).trace).get? i = some (.wait (backoff d k)) ∧
        ((selRetryGo f d a r last).trace).get? (i + 1) = some (.call (k + 1)) := by
  intro r
  induction r with
  | zero => intro a last k e _ _ _ hmem; simp [selRetryGo] at hmem
  | succ r ih =>
    intro a last k e hfk hnrk hklt hmem
    cases hf : f a with
    | ok v =>
      simp [selRetryGo, hf] at hmem
      subst hmem
      rw [hfk] at hf
      simp at hf
    | error e2 =>
      by_cases hnr : e2.noRetry
      · simp [selRetryGo, hf, hnr] at hmem
        subst hmem
        rw [hfk] at hf
        injection hf with hf
        subst hf
        rw [hnrk] at hnr
        simp at hnr
      · have hnr2 : e2.noRetry = false := by simpa using hnr
        by_cases hr0 : r = 0
        · simp [selRetryGo, hf, hnr2, hr0] at hmem
          subst hmem
          omega
        · have hmain : selRetryGo f d a (r + 1) last =
              ⟨.call a :: .wait (backoff d a) ::
                 (selRetryGo f d (a + 1) r (some e2)).trace,
               (selRetryGo f d (a + 1) r (some e2)).result⟩ := by
            simp [selRetryGo, hf, hnr2, hr0]
          rw [hmain] at hmem ⊢
          simp only [List.mem_cons] at hmem
          rcases hmem with h | h | h
          · -- invoked attempt is the current one: the wait sits at position 1
            -- and the tail run opens with the invocation of the next attempt
            simp only [REvent.call.injEq] at h
            subst h
            refine ⟨1, by simp, ?_⟩
            have hh := selRetryGo_head f d (k + 1) r (some e2) (by omega)
            cases hrt : (selRetryGo f d (k + 1) r (some e2)).trace with
            | nil => rw [hrt] at hh; simp at hh
            | cons x t2 =>
              rw [hrt] at hh
              simp only [List.head?_cons, Option.some.injEq] at hh
              subst hh
              simp
          · simp at h
          · obtain ⟨i, h1, h2⟩ := ih (a + 1) (some e2) k e hfk hnrk (by omega) h
            exact ⟨i + 2, by simpa using h1, by simpa using h2⟩

/-- If every attempt of a selective run fails retryably, the run fails with
the error of the last attempt. -/
theorem selRetryGo_all_fail (f : Nat → Except JsError α) (d : ℚ) :
    ∀ (r a : Nat) (last : Option JsError) (en : JsError),
      1 ≤ r →
      (∀ j, a ≤ j → j < a + r → ∃ e, f j = .error e ∧ e.noRetry = false) →
      f (a + r - 1) = .error en →
      (selRetryGo f d a r last).result = .error (some en) := by
  intro r
  induction r with
  | zero => intro a last en h; omega
  | succ r ih =>
    intro a last en _ hall hlast
    obtain ⟨e, hfa, hnr⟩ := hall a (le_refl a) (by omega)
    by_cases hr0 : r = 0
    · subst hr0
      have ha : a + 1 - 1 = a := by omega
      rw [ha, hfa] at hlast
      injection hlast with hlast
      subst hlast
      simp [selRetryGo, hfa, hnr]
    · have hmain : (selRetryGo f d a (r + 1) last).result =
          (selRetryGo f d (a + 1) r (some e)).result := by
        simp [selRetryGo, hfa, hnr, hr0]
      rw [hmain]
      apply ih (a + 1) (some e) en (by omega)
      · intro j hj1 hj2
        exact hall j (by omega) (by omega)
      · have ha : a + 1 + r - 1 = a + (r + 1) - 1 := by omega
        rw [ha]
        exact hlast

/-- If a selective run invokes an attempt whose failure carries the noRetry
flag, the run fails with exactly that error and the trace ends at that
invocation: no wait and no further invocation follows it. -/
theorem selRetryGo_noRetry_stops (f : Nat → Except JsError α) (d : ℚ) :
    ∀ (r a : Nat) (last : Option JsError) (k : Nat) (e : JsError),
      f k = .error e → e.noRetry = true →
      REvent.call k ∈ (selRetryGo f d a r last).trace →
      (selRetryGo f d a r last).result = .error (some e) ∧
      (∀ i, ((selRetryGo f d a r last).trace).get? i = some (.call k) →
        ((selRetryGo f d a r last).trace).length = i + 1) := by
  intro r
  induction r with
  | zero => intro a last k e _ _ hmem; simp [selRetryGo] at hmem
  | succ r ih =>
    intro a last k e hfk hnrk hmem
    cases hf : f a with
    | ok v =>
      simp [selRetryGo, hf] at hmem
      subst hmem
      rw [hfk] at hf
      simp at hf
    | error e2 =>
      by_cases hnr : e2.noRetry
      · simp [selRetryGo, hf, hnr] at hmem
        subst hmem
        rw [hfk] at hf
        injection hf with hf
        subst hf
        constructor
        · simp [selRetryGo, hfk, hnr]
        · intro i hi
          simp only [selRetryGo, hfk, hnr, if_true] at hi ⊢
          cases i with
          | zero => simp
          | succ j => simp at hi
      · have hnr2 : e2.noRetry = false := by simpa using hnr
        by_cases hr0 : r = 0
        · simp [selRetryGo, hf, hnr2, hr0] at hmem
          subst hmem
          rw [hfk] at hf
          injection hf with hf
          subst hf
          rw [hnrk] at hnr2
          simp at hnr2
        · have hmain : selRetryGo f d a (r + 1) last =
              ⟨.call a :: .wait (backoff d a) ::
                 (selRetryGo f d (a + 1) r (some e2)).trace,
               (selRetryGo f d (a + 1) r (some e2)).result⟩ := by
            simp [selRetryGo, hf, hnr2, hr0]
          rw [hmain] at hmem ⊢
          simp only [List.mem_cons] at hmem
          have hka : k ≠ a := by
            intro hk
            subst hk
            rw [hfk] at hf
            injection hf with hf
            subst hf
            rw [hnrk] at hnr2
            simp at hnr2
          rcases hmem with h | h | h
          · simp only [REvent.call.injEq] at h
            exact absurd h hka
          · simp at h
          · obtain ⟨hres, hpos⟩ := ih (a + 1) (some e2) k e hfk hnrk h
            refine ⟨hres, ?_⟩
            intro i hi
            cases i with
            | zero =>
              simp only [List.get?_cons_zero, Option.some.injEq] at hi
              injection hi with hi
              exact absurd hi.symm hka
            | succ j =>
              cases j with
              | zero => simp at hi
              | succ m =>
                simp only [List.get?_cons_succ] at hi
                have := hpos m hi
                simp only [List.length_cons]
                omega

/-- A plain run with at least one iteration available begins by invoking the
operation at the current attempt number. -/
theorem retryGo_head (f : Nat → Except JsError α) (d : ℚ) (a r : Nat)
    (last : Option JsError) (hr : 1 ≤ r) :
    ((retryGo f d a r last).trace).head? = some (.call a) := by
  match r, hr with
  | r + 1, _ =>
    cases hf : f a with
    | ok v => simp [retryGo, hf]
    | error e =>
      by_cases hr0 : r = 0
      · simp [retryGo, hf, hr0]
      · simp [retryGo, hf, hr0]

/-- Every invocation recorded by a plain run lies between the starting
attempt and the last iteration available. -/
theorem retryGo_mem_call (f : Nat → Except JsError α) (d : ℚ) :
    ∀ (r a : Nat) (last : Option JsError) (k : Nat),
      REvent.call k ∈ (retryGo f d a r last).trace → a ≤ k ∧ k < a + r := by
  intro r
  induction r with
  | zero => intro a last k h; simp [retryGo] at h
  | succ r ih =>
    intro a last k h
    cases hf : f a with
    | ok v =>
      simp [retryGo, hf] at h
      omega
    | error e =>
      by_cases hr0 : r = 0
      · simp [retryGo, hf, hr0] at h
        omega
      · simp [retryGo, hf, hr0] at h
        rcases h with h | h
        · omega
        · have := ih (a + 1) (some e) k h
          omega

/-- A plain run with `r` iterations available invokes the operation at most
`r` times. -/
theorem retryGo_numCalls (f : Nat → Except JsError α) (d : ℚ) :
    ∀ (r a : Nat) (last : Option JsError),
      numCalls (retryGo f d a r last).trace ≤ r := by
  intro r
  induction r with
  | zero => intro a last; simp [retryGo, numCalls_nil]
  | succ r ih =>
    intro a last
    cases hf : f a with
    | ok v => simp [retryGo, hf, numCalls_cons_call, numCalls_nil]
    | error e =>
      by_cases hr0 : r = 0
      · simp [retryGo, hf, hr0, numCalls_cons_call, numCalls_nil]
      · simp [retryGo, hf, hr0, numCalls_cons_call, numCalls_cons_wait]
        have := ih (a + 1) (some e)
        omega

/-- In a plain run, every invoked attempt `k` that fails and is not the last
iteration is followed by a wait of exactly `backoff d k` immediately followed
by the invocation of attempt `k + 1`. -/
theorem retryGo_wait_before (f : Nat → Except JsError α) (d : ℚ) :
    ∀ (r a : Nat) (last : Option JsError) (k : Nat) (e : JsError),
      f k = .error e → k + 1 < a + r →
      REvent.call k ∈ (retryGo f d a r last).trace →
      ∃ i, ((retryGo f d a r last).trace).get? i = some (.wait (backoff d k)) ∧
        ((retryGo f d a r last).trace).get? (i + 1) = some (.call (k + 1)) := by
  intro r
  induction r with
  | zero => intro a last k e _ _ hmem; simp [retryGo] at hmem
  | succ r ih =>
    intro a last k e hfk hklt hmem
    cases hf : f a with
    | ok v =>
      simp [retryGo, hf] at hmem
      subst hmem
      rw [hfk] at hf
      simp at hf
    | error e2 =>
      by_cases hr0 : r = 0
      · simp [retryGo, hf, hr0] at hmem
        subst hmem
        omega
      · have hmain : retryGo f d a (r + 1) last =
            ⟨.call a :: .wait (backoff d a) ::
               (retryGo f d (a + 1) r (some e2)).trace,
             (retryGo f d (a + 1) r (some e2)).result⟩ := by
          simp [retryGo, hf, hr0]
        rw [hmain] at hmem ⊢
        simp only [List.mem_cons] at hmem
        rcases hmem with h | h | h
        · simp only [REvent.call.injEq] at h
          subst h
          refine ⟨1, by simp, ?_⟩
          have hh := retryGo_head f d (k + 1) r (some e2) (by omega)
          cases hrt : (retryGo f d (k + 1) r (some e2)).trace with
          | nil => rw [hrt] at hh; simp at hh
          | cons x t2 =>
            rw [hrt] at hh
            simp only [List.head?_cons, Option.some.injEq] at hh
            subst hh
            simp
        · simp at h
        · obtain ⟨i, h1, h2⟩ := ih (a + 1) (some e2) k e hfk (by omega) h
          exact ⟨i + 2, by simpa using h1, by simpa using h2⟩

/-- If every attempt of a plain run fails, the run fails with the error of
the last attempt. -/
theorem retryGo_all_fail (f : Nat → Except JsError α) (d : ℚ) :
    ∀ (r a : Nat) (last : Option JsError) (en : JsError),
      1 ≤ r →
      (∀ j, a ≤ j → j < a + r → ∃ e, f j = .error e) →
      f (a + r - 1) = .error en →
      (retryGo f d a r last).result = .error (some en) := by
  intro r
  induction r with
  | zero => intro a last en h; omega
  | succ r ih =>
    intro a last en _ hall hlast
    obtain ⟨e, hfa⟩ := hall a (le_refl a) (by omega)
    by_cases hr0 : r = 0
    · subst hr0
      have ha : a + 1 - 1 = a := by omega
      rw [ha, hfa] at hlast
      injection hlast with hlast
      subst hlast
      simp [retryGo, hfa]
    · have hmain : (retryGo f d a (r + 1) last).result =
          (retryGo f d (a + 1) r (some e)).result := by
        simp [retryGo, hfa, hr0]
      rw [hmain]
      apply ih (a + 1) (some e) en (by omega)
      · intro j hj1 hj2
        exact hall j (by omega) (by omega)
      · have ha : a + 1 + r - 1 = a + (r + 1) - 1 := by omega
        rw [ha]
        exact hlast

/-- The full trace of a plain run that exhausts all its iterations: each
attempt from `a` on, with the backoff wait between consecutive attempts and
no wait after the last. -/
def fullTrace (d : ℚ) : Nat → Nat → List REvent
  | _, 0 => []
  | a, 1 => [.call a]
  | a, r + 2 => .call a :: .wait (backoff d a) :: fullTrace d (a + 1) (r + 1)

/-- A plain run that ends in failure has performed every iteration: its trace
is the full interleaving of calls and backoff waits. -/
theorem retryGo_error_trace (f : Nat → Except JsError α) (d : ℚ) :
    ∀ (r a : Nat) (last : Option JsError) (x : Option JsError),
      (retryGo f d a r last).result = .error x →
      (retryGo f d a r last).trace = fullTrace d a r := by
  intro r
  induction r with
  | zero => intro a last x _; simp [retryGo, fullTrace]
  | succ r ih =>
    intro a last x hres
    cases hf : f a with
    | ok v => simp [retryGo, hf] at hres
    | error e =>
      by_cases hr0 : r = 0
      · subst hr0
        simp [retryGo, hf, fullTrace]
      · obtain ⟨r2, hr2⟩ : ∃ r2, r = r2 + 1 := ⟨r - 1, by omega⟩
        subst hr2
        have hmain : retryGo f d a (r2 + 1 + 1) last =
            ⟨.call a :: .wait (backoff d a) ::
               (retryGo f d (a + 1) (r2 + 1) (some e)).trace,
             (retryGo f d (a + 1) (r2 + 1) (some e)).result⟩ := by
          simp [retryGo, hf]
        rw [hmain] at hres ⊢
        simp only at hres
        simp only [fullTrace]
        rw [ih (a + 1) (some e) x hres]

/-! ### The claims -/

/-- C1: for every operation, every maxAttempts `n ≥ 1` and every baseDelay,
both retry policies (withSelectiveRetry and withRetry) invoke the operation
at most `n` times; for every invoked attempt `k ≥ 1` that fails retryably
and is not the last, the wait before attempt `k + 1` equals
`baseDelay * 1.5 ^ (k - 1)`; and if all `n` attempts fail, the policy fails
with the error of the last attempt. -/
theorem C1_retry_policy (α : Type) (f g : Nat → Except JsError α) (n : Nat)
    (delay : ℚ) (hn : 1 ≤ n) :
    (numCalls (withSelectiveRetry f n delay).trace ≤ n ∧
     (∀ k e, 1 ≤ k → k < n → f k = .error e → e.noRetry = false →
        REvent.call k ∈ (withSelectiveRetry f n delay).trace →
        ∃ i, ((withSelectiveRetry f n delay).trace).get? i =
              some (.wait (delay * (3 / 2) ^ (k - 1))) ∧
          ((withSelectiveRetry f n delay).trace).get? (i + 1) =
              some (.call (k + 1))) ∧
     (∀ en, (∀ j, 1 ≤ j → j ≤ n → ∃ e, f j = .error e ∧ e.noRetry = false) →
        f n = .error en →
        (withSelectiveRetry f n delay).result = .error (some en))) ∧
    (numCalls (withRetry g n delay).trace ≤ n ∧
     (∀ k e, 1 ≤ k → k < n → g k = .error e →
        REvent.call k ∈ (withRetry g n delay).trace →
        ∃ i, ((withRetry g n delay).trace).get? i =
              some (.wait (delay * (3 / 2) ^ (k - 1))) ∧
          ((withRetry g n delay).trace).get? (i + 1) =
              some (.call (k + 1))) ∧
     (∀ en, (∀ j, 1 ≤ j → j ≤ n → ∃ e, g j = .error e) →
        g n = .error en →
        (withRetry g n delay).result = .error (some en))) := by
  refine ⟨⟨?_, ?_, ?_⟩, ?_, ?_, ?_⟩
  · exact selRetryGo_numCalls f delay n 1 none
  · intro k e hk1 hkn hfk hnr hmem
    exact selRetryGo_wait_before f delay n 1 none k e hfk hnr (by omega) hmem
  · intro en hall hlast
    apply selRetryGo_all_fail f delay n 1 none en hn
    · intro j hj1 hj2
      exact hall j hj1 (by omega)
    · have h1 : 1 + n - 1 = n := by omega
      rw [h1]
      exact hlast
  · exact retryGo_numCalls g delay n 1 none
  · intro k e hk1 hkn hfk hmem
    exact retryGo_wait_before g delay n 1 none k e hfk (by omega) hmem
  · intro en hall hlast
    apply retryGo_all_fail g delay n 1 none en hn
    · intro j hj1 hj2
      exact hall j hj1 (by omega)
    · have h1 : 1 + n - 1 = n := by omega
      rw [h1]
      exact hlast

/-- An operation that fails retryably at every attempt, for the C1 witness. -/
def alwaysFail : Nat → Except JsError Unit :=
  fun _ => .error { message := "boom", status := none, noRetry := false }

theorem C1_retry_policy_witness :
    (withSelectiveRetry alwaysFail 3 2000).result =
      .error (some { message := "boom", status := none, noRetry := false }) ∧
    numCalls (withRetry alwaysFail 3 2000).trace ≤ 3 ∧
    (∃ i, ((withSelectiveRetry alwaysFail 3 2000).trace).get? i =
        some (.wait ((2000 : ℚ) * (3 / 2) ^ (1 - 1))) ∧
      ((withSelectiveRetry alwaysFail 3 2000).trace).get? (i + 1) =
        some (.call 2)) := by
  have h := C1_retry_policy Unit alwaysFail alwaysFail 3 2000 (by norm_num)
  refine ⟨?_, h.2.1, ?_⟩
  · exact h.1.2.2 _ (fun j _ _ => ⟨_, rfl, rfl⟩) rfl
  · exact h.1.2.1 1 _ (le_refl 1) (by norm_num) rfl rfl (by decide)

/-- C2: if an attempt invoked by withSelectiveRetry fails with an error
flagged non-retryable, the policy fails immediately with that error: the
trace ends at that invocation, so no further attempt is made and no backoff
wait occurs, whatever the number of remaining attempts. -/
theorem C2_nonretryable_halts (α : Type) (f : Nat → Except JsError α)
    (n : Nat) (delay : ℚ) (k : Nat) (e : JsError)
    (hf : f k = .error e) (hnr : e.noRetry = true)
    (hmem : REvent.call k ∈ (withSelectiveRetry f n delay).trace) :
    (withSelectiveRetry f n delay).result = .error (some e) ∧
    (∀ i, ((withSelectiveRetry f n delay).trace).get? i = some (.call k) →
      ((withSelectiveRetry f n delay).trace).length = i + 1) :=
  selRetryGo_noRetry_stops f delay n 1 none k e hf hnr hmem

/-- An operation failing non-retryably at attempt 2 and retryably elsewhere,
for the C2 witness: with 5 attempts available, the run stops at attempt 2. -/
def failHardAtTwo : Nat → Except JsError Unit :=
  fun k =>
    if k = 2 then .error { message := "denied", status := some 400, noRetry := true }
    else .error { message := "boom", status := none, noRetry := false }

theorem C2_nonretryable_halts_witness :
    (withSelectiveRetry failHardAtTwo 5 2000).result =
      .error (some { message := "denied", status := some 400, noRetry := true }) ∧
    ((withSelectiveRetry failHardAtTwo 5 2000).trace).length = 3 := by
  have h := C2_nonretryable_halts Unit failHardAtTwo 5 2000 2
    { message := "denied", status := some 400, noRetry := true }
    rfl rfl (by decide)
  exact ⟨h.1, h.2 2 (by decide)⟩

/-- C3: for every single HTTP attempt made by executeFetch, a non-2xx
response yields a failure carrying the numeric status; that failure is
flagged non-retryable exactly when the status is 400 and the URL contains
the reward-claim path; and every network or transport exception yields a
retryable failure with no status. -/
theorem C3_executeFetch (α : Type) (url : String) (status : Nat) (body : α)
    (msg : String) :
    (is2xx status = false →
      ∃ e, executeFetch url (.response status body) = .error e ∧
        e.status = some status ∧
        (e.noRetry = true ↔ (status = 400 ∧ earnUrl url = true))) ∧
    (∃ e, executeFetch (α := α) url (.networkError msg) = .error e ∧
      e.status = none ∧ e.noRetry = false) := by
  constructor
  · intro h2
    refine ⟨{ message := "Request failed: HTTP error! Status: " ++ toString status,
              status := some status,
              noRetry := earnUrl url && status == 400 }, ?_, rfl, ?_⟩
    · simp [executeFetch, h2]
    · simp only [Bool.and_eq_true, beq_iff_eq]
      constructor
      · intro hb
        exact ⟨hb.2, hb.1⟩
      · intro hb
        exact ⟨hb.2, hb.1⟩
  · exact ⟨_, rfl, rfl, rfl⟩

theorem C3_executeFetch_witness :
    (∃ e, executeFetch "https://node.securitylabs.xyz/api/v1/users/earn/7"
        (FetchResult.response 400 ()) = .error e ∧
      e.status = some 400 ∧ e.noRetry = true) ∧
    (∃ e, executeFetch "https://node.securitylabs.xyz/api/v1/users"
        (FetchResult.response 400 ()) = .error e ∧
      e.status = some 400 ∧ e.noRetry = false) ∧
    (∃ e, executeFetch (α := Unit) "https://node.securitylabs.xyz/api/v1/users"
        (FetchResult.networkError "socket hang up") = .error e ∧
      e.status = none ∧ e.noRetry = false) := by
  refine ⟨?_, ?_, ?_⟩
  · obtain ⟨e, he, hs, hiff⟩ :=
      (C3_executeFetch Unit "https://node.securitylabs.xyz/api/v1/users/earn/7"
        400 () "unused").1 (by decide)
    exact ⟨e, he, hs, hiff.mpr ⟨rfl, by decide⟩⟩
  · obtain ⟨e, he, hs, hiff⟩ :=
      (C3_executeFetch Unit "https://node.securitylabs.xyz/api/v1/users"
        400 () "unused").1 (by decide)
    refine ⟨e, he, hs, ?_⟩
    cases hnr : e.noRetry with
    | false => rfl
    | true =>
      have := hiff.mp hnr
      have hearn : earnUrl "https://node.securitylabs.xyz/api/v1/users" = false := by decide
      rw [hearn] at this
      exact absurd this.2 (by simp)
  · exact (C3_executeFetch Unit "https://node.securitylabs.xyz/api/v1/users"
      200 () "socket hang up").2

/-! ### String helpers for distinguishing log messages -/

theorem head_data_append (s t : String) (c : Char) (h : s.data.head? = some c) :
    (s ++ t).data.head? = some c := by
  rw [String.data_append]
  cases hs : s.data with
  | nil => rw [hs] at h; cases h
  | cons x l =>
    rw [hs] at h
    injection h with h
    subst h
    rfl

/-- The check-in success message always begins with the ANSI escape
character. -/
theorem checkinSuccessMsg_head (n : Int) :
    (checkinSuccessMsg n).data.head? = some (Char.ofNat 27) := by
  unfold checkinSuccessMsg
  apply head_data_append
  apply head_data_append
  rfl

/-- The user-details message always begins with the letter U. -/
theorem userIdMsg_head (u : Option UserBody) :
    (userIdMsg u).data.head? = some (Char.ofNat 85) := by
  unfold userIdMsg
  apply head_data_append
  apply head_data_append
  apply head_data_append
  rfl

/-- A string whose first character is not the ANSI escape character is never
a check-in success message. -/
theorem checkinSuccessMsg_ne (n : Int) (s : String)
    (hs : s.data.head? ≠ some (Char.ofNat 27)) : checkinSuccessMsg n ≠ s := by
  intro h
  apply hs
  rw [← h]
  exact checkinSuccessMsg_head n

/-- The number awarded by a claim payload as the workflow reads it. -/
def awardOf : Option CheckinBody → Option Int
  | some b => b.tokensToAward
  | none => none

/-- A falsy award yields exactly the not-available warning. -/
theorem checkinLogs_falsy (c : Option CheckinBody)
    (h : intTruthy (awardOf c) = false) :
    checkinLogs (.ok c) = [⟨.warn, "Check-in not available yet."⟩] := by
  cases c with
  | none => simp [checkinLogs]
  | some b =>
    cases hb : b.tokensToAward with
    | none => simp [checkinLogs, hb]
    | some n =>
      simp [awardOf, hb, intTruthy] at h
      simp [checkinLogs, hb, h]

/-- The success log entry never occurs among the fixed info entries that
precede the reward-claim step. -/
theorem success_log_not_in_preamble (n : Int) (u : Option UserBody) :
    LogEvent.mk .info (checkinSuccessMsg n) ∉
      ([⟨.info, "Attempting login"⟩,
        ⟨.info, "Login succeeded! Fetching user details..."⟩,
        ⟨.info, userIdMsg u⟩,
        ⟨.info, "Attempting daily check-in..."⟩] : List LogEvent) := by
  have h1 : checkinSuccessMsg n ≠ "Attempting login" :=
    checkinSuccessMsg_ne n _ (by decide)
  have h2 : checkinSuccessMsg n ≠ "Login succeeded! Fetching user details..." :=
    checkinSuccessMsg_ne n _ (by decide)
  have h3 : checkinSuccessMsg n ≠ userIdMsg u := by
    apply checkinSuccessMsg_ne
    rw [userIdMsg_head u]
    decide
  have h4 : checkinSuccessMsg n ≠ "Attempting daily check-in..." :=
    checkinSuccessMsg_ne n _ (by decide)
  simp [LogEvent.mk.injEq, h1, h2, h3, h4]

/-- C4: for every outcome of the reward-claim step of the account workflow,
once sign-in has produced a token and the profile an identifier: a payload
with a nonzero tokensToAward logs the success message with the award amount;
a payload whose tokensToAward is zero or missing logs the not-available
warning and never logs success; a failure with status 400 logs the
already-checked-in classification and no error-level entry at all; any other
failure logs a check-in failure carrying the error message. -/
theorem C4_checkin_classification (s : Scenario) (si : Option SignInBody)
    (u : Option UserBody)
    (hsi : s.signInRes = .ok si) (htok : strTruthy (tokenOf si) = true)
    (hu : s.userRes = .ok u) (hid : strTruthy (idOf u) = true) :
    (∀ b n, s.checkinRes = .ok (some b) → b.tokensToAward = some n → n ≠ 0 →
      LogEvent.mk .info (checkinSuccessMsg n) ∈ (loginAndCheckIn s).1) ∧
    (∀ c, s.checkinRes = .ok c → intTruthy (awardOf c) = false →
      LogEvent.mk .warn "Check-in not available yet." ∈ (loginAndCheckIn s).1 ∧
      ∀ n, LogEvent.mk .info (checkinSuccessMsg n) ∉ (loginAndCheckIn s).1) ∧
    (∀ e, s.checkinRes = .error e → e.status = some 400 →
      LogEvent.mk .info alreadyCheckedMsg ∈ (loginAndCheckIn s).1 ∧
      ∀ l ∈ (loginAndCheckIn s).1, l.level ≠ .error) ∧
    (∀ e, s.checkinRes = .error e → e.status ≠ some 400 →
      LogEvent.mk .error ("Check-in failed: " ++ e.message) ∈
        (loginAndCheckIn s).1) := by
  have hlogs : (loginAndCheckIn s).1 =
      [⟨.info, "Attempting login"⟩,
       ⟨.info, "Login succeeded! Fetching user details..."⟩,
       ⟨.info, userIdMsg u⟩,
       ⟨.info, "Attempting daily check-in..."⟩] ++ checkinLogs s.checkinRes := by
    simp [loginAndCheckIn, hsi, htok, hu, hid]
  refine ⟨?_, ?_, ?_, ?_⟩
  · intro b n hc hb hn
    rw [hlogs, hc]
    simp [checkinLogs, hb, hn]
  · intro c hc hfal
    rw [hlogs, hc, checkinLogs_falsy c hfal]
    refine ⟨by simp, ?_⟩
    intro n
    simp only [List.mem_append, not_or]
    refine ⟨success_log_not_in_preamble n u, ?_⟩
    have hne : checkinSuccessMsg n ≠ "Check-in not available yet." :=
      checkinSuccessMsg_ne n _ (by decide)
    simp [LogEvent.mk.injEq, hne]
  · intro e hc h400
    rw [hlogs, hc]
    have hck : checkinLogs (Except.error e) = [⟨.info, alreadyCheckedMsg⟩] := by
      simp [checkinLogs, h400]
    rw [hck]
    refine ⟨by simp, ?_⟩
    intro l hl
    simp only [List.mem_append, List.mem_cons, List.not_mem_nil, or_false] at hl
    rcases hl with (h | h | h | h) | h <;> subst h <;> simp
  · intro e hc h400
    rw [hlogs, hc]
    have hck : checkinLogs (Except.error e) =
        [⟨.error, "Check-in failed: " ++ e.message⟩] := by
      simp [checkinLogs, h400]
    rw [hck]
    simp

/-- A concrete scenario for the C4 witness: login and profile succeed, the
claim payload awards 10 tokens. -/
def winScenario : Scenario :=
  { signInRes := .ok (some ⟨some "tok"⟩),
    userRes := .ok (some ⟨some "u1", some 5⟩),
    checkinRes := .ok (some ⟨some 10⟩) }

theorem C4_checkin_classification_witness :
    LogEvent.mk .info (checkinSuccessMsg 10) ∈ (loginAndCheckIn winScenario).1 := by
  have h := C4_checkin_classification winScenario (some ⟨some "tok"⟩)
    (some ⟨some "u1", some 5⟩) rfl (by decide) rfl (by decide)
  exact h.1 ⟨some 10⟩ 10 rfl rfl (by decide)

/-- C5: the composite load of the account and proxy lists runs under the
retry policy with 5 attempts and a 3000 ms base delay, while network calls
run under the selective retry policy with 3 attempts and a 2000 ms base
delay, so the load uses strictly more attempts and a strictly longer base
delay; and a load run that ends in failure has performed all 5 attempts,
with the four backoff waits 3000, 4500, 6750 and 10125 ms before the
failure surfaces. -/
theorem C5_load_config (readA readP : Except String String) (url : String)
    (resp : Nat → FetchResult Unit) :
    (loadData readA readP =
      withRetry (fun _ => .ok ((loadAccounts readA).1, (loadProxies readP).1))
        5 3000) ∧
    (proxyFetch url resp =
      withSelectiveRetry (fun k => executeFetch url (resp k)) 3 2000) ∧
    ((3 : Nat) < 5 ∧ (2000 : ℚ) < 3000) ∧
    (∀ (op : Nat → Except JsError (List Account × List String))
        (x : Option JsError),
      (withRetry op 5 3000).result = .error x →
      numCalls (withRetry op 5 3000).trace = 5 ∧
      waitsOf (withRetry op 5 3000).trace = [3000, 4500, 6750, 10125]) := by
  refine ⟨rfl, rfl, ⟨by norm_num, by norm_num⟩, ?_⟩
  intro op x hres
  have htr := retryGo_error_trace op 3000 5 1 none x hres
  unfold withRetry at htr ⊢
  rw [htr]
  constructor
  · decide
  · simp only [fullTrace, waitsOf, backoff, List.filterMap]
    norm_num

/-- A composite load operation that always fails, for the C5 witness. -/
def loadFail : Nat → Except JsError (List Account × List String) :=
  fun _ => .error { message := "ENOENT", status := none, noRetry := false }

theorem C5_load_config_witness :
    numCalls (withRetry loadFail 5 3000).trace = 5 ∧
    waitsOf (withRetry loadFail 5 3000).trace = [3000, 4500, 6750, 10125] := by
  have h := C5_load_config (.ok "") (.ok "") "" (fun _ => .networkError "x")
  exact h.2.2.2 loadFail
    (some { message := "ENOENT", status := none, noRetry := false }) rfl

/-- Five accounts with truthy credentials, for C6. -/
def fiveAccounts : List Account :=
  [⟨"a1@x.com", some "q1"⟩, ⟨"a2@x.com", some "q2"⟩, ⟨"a3@x.com", some "q3"⟩,
   ⟨"a4@x.com", some "q4"⟩, ⟨"a5@x.com", some "q5"⟩]

/-- C6: the scheduler assigns proxy `proxies[i mod proxies.length]` to the
account at position `i`; with proxies p0, p1 and five accounts the assigned
sequence is p0, p1, p0, p1, p0; and with no proxies every account is
processed with no proxy. -/
theorem C6_proxy_rotation :
    ((List.range 5).map (assignProxy ["p0", "p1"]) =
      [some "p0", some "p1", some "p0", some "p1", some "p0"]) ∧
    ((scheduledRuns fiveAccounts ["p0", "p1"]).map (fun w => w.proxy) =
      [some "p0", some "p1", some "p0", some "p1", some "p0"]) ∧
    (∀ i, assignProxy [] i = none) ∧
    (∀ (ps : List String) (i : Nat), ps ≠ [] →
      ∃ (h : i % ps.length < ps.length),
        assignProxy ps i = some (ps.get ⟨i % ps.length, h⟩)) := by
  refine ⟨by decide, by decide, fun i => rfl, ?_⟩
  intro ps i hps
  have hlen : 0 < ps.length := List.length_pos.mpr hps
  have hlt : i % ps.length < ps.length := Nat.mod_lt i hlen
  refine ⟨hlt, ?_⟩
  simp only [assignProxy, if_pos hlen]
  exact List.get?_eq_get hlt

theorem C6_proxy_rotation_witness :
    ∃ (h : 2 % 2 < 2),
      assignProxy ["p0", "p1"] 2 = some (["p0", "p1"].get ⟨2 % 2, h⟩) :=
  C6_proxy_rotation.2.2.2 ["p0", "p1"] 2 (by decide)

/-- C7: with an empty account list, startup logs the fatal error and does
not enter the processing loop; with accounts but an empty proxy list,
startup logs the no-proxies warning, enters the loop, and every scheduled
workflow invocation carries no proxy. -/
theorem C7_startup_checks (accounts : List Account) (proxies : List String) :
    (accounts = [] →
      (mainStartup accounts proxies).1 =
        [⟨.error, "No accounts found in data.txt"⟩] ∧
      (mainStartup accounts proxies).2 = false) ∧
    (accounts ≠ [] → proxies = [] →
      LogEvent.mk .warn
          "No proxies found in proxy.txt, will proceed without proxies" ∈
        (mainStartup accounts proxies).1 ∧
      (mainStartup accounts proxies).2 = true ∧
      ∀ w ∈ scheduledRuns accounts proxies, w.proxy = none) := by
  constructor
  · intro h
    subst h
    exact ⟨rfl, rfl⟩
  · intro hacc hpx
    subst hpx
    have hlen : ¬accounts.length = 0 := by
      simpa [List.length_eq_zero] using hacc
    refine ⟨by simp [mainStartup, hlen], by simp [mainStartup, hlen], ?_⟩
    intro w hw
    simp only [scheduledRuns, List.mem_filterMap] at hw
    obtain ⟨p, _, hp⟩ := hw
    rcases hpw : p.2.password with _ | pw
    · rw [hpw] at hp
      simp at hp
    · rw [hpw] at hp
      simp only at hp
      split at hp
      · injection hp with hp
        rw [← hp]
        rfl
      · simp at hp

theorem C7_startup_checks_witness :
    ((mainStartup [] ["p0"]).2 = false) ∧
    ((mainStartup fiveAccounts []).2 = true) ∧
    (∀ w ∈ scheduledRuns fiveAccounts [], w.proxy = none) := by
  refine ⟨?_, ?_, ?_⟩
  · exact ((C7_startup_checks [] ["p0"]).1 rfl).2
  · exact ((C7_startup_checks fiveAccounts []).2 (by decide) rfl).2.1
  · exact ((C7_startup_checks fiveAccounts []).2 (by decide) rfl).2.2

/-- C8: when an exception escapes the processing loop of an incarnation of
main, the run continues with exactly the critical error log, the restart
notice, and a 60-second sleep, followed by the next incarnation from scratch
(which loads its own account and proxy lists); the event sequence does not
end there, so the process is not terminated by the exception. -/
theorem C8_supervised_restart (inc : Incarnation) (rest : List Incarnation)
    (e : String) (hacc : inc.accounts ≠ []) (herr : inc.cycleErr = some e) :
    mainSupervised (inc :: rest) =
      (runIncarnation inc).1 ++
        ([.log ⟨.error, "Critical error in main process: " ++ e⟩,
          .log ⟨.info, "Restarting main process in 60 seconds..."⟩,
          .sleepMs 60000] : List MainEvent) ++
        mainSupervised rest := by
  have hlen : ¬inc.accounts.length = 0 := by
    simpa [List.length_eq_zero] using hacc
  have h2 : (mainStartup inc.accounts inc.proxies).2 = true := by
    simp [mainStartup, hlen]
  have hri : runIncarnation inc = ((runIncarnation inc).1, some e) := by
    rw [runIncarnation]
    simp [h2, herr]
  simp only [mainSupervised]
  rw [hri]
  simp [recoveryEvents]

/-- A failing incarnation over one account, for the C8 witness. -/
def crashedIncarnation : Incarnation :=
  { accounts := [⟨"a@x.com", some "pw"⟩], proxies := [], cycleErr := some "boom" }

theorem C8_supervised_restart_witness :
    mainSupervised [crashedIncarnation] =
      (runIncarnation crashedIncarnation).1 ++
        ([.log ⟨.error, "Critical error in main process: boom"⟩,
          .log ⟨.info, "Restarting main process in 60 seconds..."⟩,
          .sleepMs 60000] : List MainEvent) ++
        mainSupervised [] :=
  C8_supervised_restart crashedIncarnation [] "boom" (by decide) rfl

/-- C9: when sign-in returns a truthy access token but the profile payload
has no truthy identifier, the workflow makes no reward-claim call and stops
after the two calls already made, and every log entry it has emitted is at
info level. -/
theorem C9_missing_id_silent (s : Scenario) (si : Option SignInBody)
    (u : Option UserBody)
    (hsi : s.signInRes = .ok si) (htok : strTruthy (tokenOf si) = true)
    (hu : s.userRes = .ok u) (hid : strTruthy (idOf u) = false) :
    (loginAndCheckIn s).2 = [.signin, .users] ∧
    Endpoint.earn ∉ (loginAndCheckIn s).2 ∧
    ∀ l ∈ (loginAndCheckIn s).1, l.level = .info := by
  have hrun : loginAndCheckIn s =
      ([⟨.info, "Attempting login"⟩,
        ⟨.info, "Login succeeded! Fetching user details..."⟩],
       [.signin, .users]) := by
    simp [loginAndCheckIn, hsi, htok, hu, hid]
  rw [hrun]
  refine ⟨rfl, by decide, ?_⟩
  intro l hl
  simp only [List.mem_cons, List.not_mem_nil, or_false] at hl
  rcases hl with h | h <;> subst h <;> rfl

/-- A scenario with a token but no identifier, for the C9 witness. -/
def noIdScenario : Scenario :=
  { signInRes := .ok (some ⟨some "tok"⟩),
    userRes := .ok (some ⟨none, some 3⟩),
    checkinRes := .ok none }

theorem C9_missing_id_silent_witness :
    (loginAndCheckIn noIdScenario).2 = [.signin, .users] ∧
    Endpoint.earn ∉ (loginAndCheckIn noIdScenario).2 := by
  have h := C9_missing_id_silent noIdScenario (some ⟨some "tok"⟩)
    (some ⟨none, some 3⟩) rfl (by decide) rfl (by decide)
  exact ⟨h.1, h.2.1⟩

/-! ### Lemmas about the character-level split -/

theorem splitCh_not_mem (sep : Char) (l : List Char) (h : sep ∉ l) :
    splitCh sep l = [l] := by
  induction l with
  | nil => rfl
  | cons c cs ih =>
    have hc : ¬c = sep := by
      intro hh
      exact h (hh ▸ List.mem_cons_self c cs)
    have hcs : sep ∉ cs := fun hm => h (List.mem_cons_of_mem c hm)
    simp only [splitCh, if_neg hc, ih hcs]

theorem splitCh_append (sep : Char) (p rest : List Char) (hp : sep ∉ p) :
    splitCh sep (p ++ sep :: rest) = p :: splitCh sep rest := by
  induction p with
  | nil => simp [splitCh]
  | cons c p2 ih =>
    have hc : ¬c = sep := by
      intro hh
      exact hp (hh ▸ List.mem_cons_self c p2)
    have hp2 : sep ∉ p2 := fun hm => hp (List.mem_cons_of_mem c hm)
    simp only [List.cons_append, splitCh, if_neg hc, List.append_eq, ih hp2]

/-- C10: account parsing splits each kept line at every colon and keeps only
the first two segments, so a password containing a colon is silently stored
truncated at its first colon, and a line with no colon yields an account
with no password; the scheduler never invokes the workflow for an account
whose password is absent. -/
theorem C10_credential_parsing :
    (∀ (e p r : List Char), ':' ∉ e → ':' ∉ p →
      parseLine ⟨e ++ (':' :: (p ++ (':' :: r)))⟩ =
        { email := ⟨e⟩, password := some ⟨p⟩ }) ∧
    (∀ (l : List Char), ':' ∉ l →
      parseLine ⟨l⟩ = { email := ⟨l⟩, password := none }) ∧
    ((loadAccounts (.ok "a@x.com:pw:extra\nplain\n")).1 =
      [{ email := "a@x.com", password := some "pw" },
       { email := "plain", password := none }]) ∧
    (∀ (accounts : List Account) (proxies : List String) (i : Nat)
        (a : Account),
      accounts.get? i = some a → a.password = none →
      ∀ w ∈ scheduledRuns accounts proxies, w.index ≠ i) := by
  refine ⟨?_, ?_, by decide, ?_⟩
  · intro e p r he hp
    have hs : splitCh ':' (e ++ (':' :: (p ++ (':' :: r)))) = e :: p :: splitCh ':' r := by
      rw [splitCh_append _ _ _ he, splitCh_append _ _ _ hp]
    unfold parseLine
    have h0 : (String.mk (e ++ (':' :: (p ++ (':' :: r))))).toList =
        e ++ (':' :: (p ++ (':' :: r))) := rfl
    rw [h0]
    simp only [hs]
    rfl
  · intro l hl
    have hs : splitCh ':' l = [l] := splitCh_not_mem _ _ hl
    unfold parseLine
    have h0 : (String.mk l).toList = l := rfl
    rw [h0]
    simp only [hs]
    rfl
  · intro accounts proxies i a hga hpw w hw hwi
    simp only [scheduledRuns, List.mem_filterMap] at hw
    obtain ⟨q, hqmem, hq⟩ := hw
    obtain ⟨j, b⟩ := q
    rcases hbpw : b.password with _ | pw
    · rw [hbpw] at hq
      simp at hq
    · rw [hbpw] at hq
      simp only at hq
      split at hq
      · injection hq with hq
        have hidx : w.index = j := by rw [← hq]
        rw [hidx] at hwi
        subst hwi
        have hget : accounts[j]? = some b :=
          List.mk_mem_enum_iff_getElem?.mp hqmem
        rw [← List.get?_eq_getElem?, hga] at hget
        injection hget with hget
        rw [hget, hbpw] at hpw
        cases hpw
      · simp at hq

theorem C10_credential_parsing_witness :
    (parseLine ⟨['a', ':', 'b', ':', 'c']⟩ =
      { email := ⟨['a']⟩, password := some ⟨['b']⟩ }) ∧
    (parseLine ⟨['n', 'o']⟩ = { email := ⟨['n', 'o']⟩, password := none }) ∧
    (∀ w ∈ scheduledRuns [{ email := "plain", password := none }] [],
      w.index ≠ 0) := by
  refine ⟨?_, ?_, ?_⟩
  · exact C10_credential_parsing.1 ['a'] ['b'] ['c'] (by decide) (by decide)
  · exact C10_credential_parsing.2.1 ['n', 'o'] (by decide)
  · exact C10_credential_parsing.2.2.2 _ [] 0 _ rfl rfl

end Funct0r
